import Mathlib

/-!
Shallow embedding of `src/vclock.py` (brianpattie/vclock): a vector-clock
simulation where each node executes a script of events (independent, send,
receive-with-dependency) and exchanges messages over per-node FIFO queues.

Mutation in the Python source is modelled by explicit state passing: every
method that mutates `self` becomes a function returning the new value.
Python `queue.Queue` contents delivered to a node are modelled as the
node's `inbox` list (FIFO order); `queue.get()` on an exhausted inbox means
the thread blocks forever, modelled as `none`.  `exit()` raised inside a
`threading.Thread` terminates only that thread (CPython's thread bootstrap
swallows `SystemExit`), so an invalid event is modelled as halting only the
node that encountered it.
-/

namespace VClock

/-- Python class `VectorClock` (src/vclock.py lines 31-58): an id (None for a
detached copy) and a list of counters. -/
structure VectorClock where
  id : Option Nat
  clock : List Nat
  deriving Repr, DecidableEq

/-- `VectorClock.inc` (line 38-39): `self.clock[self.id] += 1`.  With `id = None`
the Python would raise; the source never calls `inc` on a detached copy, and the
`none` branch (never exercised by any theorem below) returns the clock unchanged. -/
def inc (c : VectorClock) : VectorClock :=
  match c.id with
  | some i => { c with clock := c.clock.set i (c.clock.getD i 0 + 1) }
  | none => c

/-- The loop of `VectorClock.merge` (lines 44-45): for each index of
`self.clock`, replace the slot by the max with `other.clock[i]`. -/
def maxClock (c other : VectorClock) : VectorClock :=
  { c with clock :=
    (List.range c.clock.length).map fun i => max (c.clock.getD i 0) (other.clock.getD i 0) }

/-- `VectorClock.merge` (lines 43-46): the element-wise max loop, then
`self.inc()` (line 46). -/
def merge (c other : VectorClock) : VectorClock :=
  inc (maxClock c other)

/-- `VectorClock.copy` (lines 50-54): a fresh clock with `id = None` whose slots
are copied element by element from `self.clock`. -/
def copy (c : VectorClock) : VectorClock :=
  { id := none, clock := (List.range c.clock.length).map fun i => c.clock.getD i 0 }

/-- Python class `Message` (lines 8-12). -/
structure Message where
  event_id : Nat
  clock : VectorClock
  deriving Repr, DecidableEq

/-- Python class `Event` (lines 21-27): fields not needed for the event type
hold `None` in the source, hence `Option`. -/
structure Event where
  event_id : Nat
  type : Char
  receiver : Option Nat
  dependency : Option Nat
  deriving Repr, DecidableEq

/-- The mutable state of one `Node` thread (lines 65-73), together with its
observable effects: `inbox` is the (FIFO) content of `queues[id]` still to be
consumed, `log` the `(event_id, clock)` pairs printed by `log`, and `sent` the
`(receiver, message)` pairs enqueued on other queues, in order. -/
structure NodeState where
  id : Nat
  clock : VectorClock
  buffer : List Nat
  inbox : List Message
  log : List (Nat × List Nat)
  sent : List (Nat × Message)
  deriving Repr, DecidableEq

/-- `Node.buf_event_id` (lines 112-113): append one event id to the buffer. -/
def buf_event_id (buffer : List Nat) (event_id : Nat) : List Nat :=
  buffer ++ [event_id]

/-- `Node.buffered` (lines 116-120): membership test via `list.index` with the
exception caught; never removes anything. -/
def buffered (buffer : List Nat) (event_id : Nat) : Bool :=
  buffer.contains event_id

/-- The dequeue-merge loop of `Node.wait_on_dependency` (lines 103-109): take
the next message, merge its clock, stop if its id matches the dependency,
otherwise buffer the id and continue.  Running out of queued messages means the
thread blocks forever on `queue.get()` (`none`). -/
def waitLoop (dep : Nat) : List Message → VectorClock → List Nat →
    Option (VectorClock × List Nat × List Message)
  | [], _, _ => none
  | m :: rest, c, buf =>
    let c2 := merge c m.clock
    if m.event_id = dep then some (c2, buf, rest)
    else waitLoop dep rest c2 (buf_event_id buf m.event_id)

/-- `Node.wait_on_dependency` (lines 99-109): if the dependency id is already
buffered, do nothing at all; otherwise run the dequeue-merge loop. -/
def wait_on_dependency (s : NodeState) (dep : Nat) : Option NodeState :=
  if buffered s.buffer dep then some s
  else
    match waitLoop dep s.inbox s.clock s.buffer with
    | some (c, buf, rest) => some { s with clock := c, buffer := buf, inbox := rest }
    | none => none

/-- One iteration of the `for ev in self.events` loop of `Node.run`
(lines 75-96).  `none` means the node stops executing: a receive blocked
forever, or the `else` branch printed `invalid event` and called `exit()`
(which ends only this thread).  A send with `receiver = None` would raise
`TypeError` indexing `queues`, likewise ending only this thread. -/
def runEvent (s : NodeState) (ev : Event) : Option NodeState :=
  if ev.type = 'i' then
    some { s with log := s.log ++ [(ev.event_id, s.clock.clock)], clock := inc s.clock }
  else if ev.type = 'r' then
    match ev.dependency with
    | some d =>
      match wait_on_dependency s d with
      | some s2 =>
        some { s2 with log := s2.log ++ [(ev.event_id, s2.clock.clock)], clock := inc s2.clock }
      | none => none
    | none => none
  else if ev.type = 's' then
    match ev.receiver with
    | some r =>
      some { s with sent := s.sent ++ [(r, ⟨ev.event_id, copy s.clock⟩)],
                    log := s.log ++ [(ev.event_id, s.clock.clock)],
                    clock := inc s.clock }
    | none => none
  else
    none

/-- `Node.run` (lines 75-96): execute the script in order; when an event makes
the thread stop (`runEvent = none`) no further event of this node executes. -/
def runNode (s : NodeState) : List Event → NodeState
  | [] => s
  | ev :: rest =>
    match runEvent s ev with
    | some s2 => runNode s2 rest
    | none => s

/-- A node as constructed by the driver (lines 216-218): fresh all-zero clock
owned by node `i` among `n` nodes, empty buffer, with `inbox` the messages its
queue will deliver, in FIFO order. -/
def initNode (i n : Nat) (inbox : List Message) : NodeState :=
  { id := i, clock := ⟨some i, List.replicate n 0⟩, buffer := [], inbox := inbox,
    log := [], sent := [] }

/-- The messages a finished node enqueued on `queues[j]`, in send order. -/
def sentTo (s : NodeState) (j : Nat) : List Message :=
  (s.sent.filter fun p => p.1 = j).map Prod.snd

/-- Two-node simulation for scenarios in which node 0 never receives: node 0's
whole run is independent of node 1, and node 1's queue delivers exactly node
0's sends in FIFO order, so running node 0 to completion first is a faithful
schedule of the two threads. -/
def simulate2 (script0 script1 : List Event) : NodeState × NodeState :=
  let s0 := runNode (initNode 0 2 []) script0
  let s1 := runNode (initNode 1 2 (sentTo s0 1)) script1
  (s0, s1)

/-- Well-formedness of a node state among `n` nodes: the clock is owned by the
node, has one slot per node, and every queued message carries an `n`-slot
snapshot. -/
def WF (n : Nat) (s : NodeState) : Prop :=
  s.clock.id = some s.id ∧ s.id < n ∧ s.clock.clock.length = n ∧
    ∀ m ∈ s.inbox, m.clock.clock.length = n

/-- Shorthand for the slots a node's own clock currently holds. -/
def slots (s : NodeState) : List Nat := s.clock.clock

/-- The node's own slot of its own clock. -/
def ownSlot (s : NodeState) : Nat := s.clock.clock.getD s.id 0

/-! Helper lemmas about list slots. -/

lemma getD_zero_of_len_le {l : List Nat} {j : Nat} (h : l.length ≤ j) : l.getD j 0 = 0 := by
  rw [List.getD_eq_getElem?_getD, List.getElem?_eq_none h]
  rfl

lemma getD_range_map (f : Nat → Nat) (n j : Nat) :
    ((List.range n).map f).getD j 0 = if j < n then f j else 0 := by
  by_cases h : j < n
  · rw [List.getD_eq_getElem?_getD, List.getElem?_map, List.getElem?_range h]
    simp [h]
  · rw [getD_zero_of_len_le (by simp; omega)]
    simp [h]

lemma getD_set_self {l : List Nat} {i v : Nat} (hi : i < l.length) :
    (l.set i v).getD i 0 = v := by
  rw [List.getD_eq_getElem?_getD, List.getElem?_set]
  simp [hi]

lemma getD_set_ne {l : List Nat} {i j v : Nat} (h : i ≠ j) :
    (l.set i v).getD j 0 = l.getD j 0 := by
  rw [List.getD_eq_getElem?_getD, List.getElem?_set_ne h, ← List.getD_eq_getElem?_getD]

/-! Helper lemmas about `inc`, `merge` and `copy`. -/

lemma inc_clock_some {c : VectorClock} {i : Nat} (h : c.id = some i) :
    (inc c).clock = c.clock.set i (c.clock.getD i 0 + 1) := by
  simp [inc, h]

lemma inc_id (c : VectorClock) : (inc c).id = c.id := by
  cases h : c.id <;> simp [inc, h]

lemma inc_length (c : VectorClock) : (inc c).clock.length = c.clock.length := by
  cases h : c.id <;> simp [inc, h]

lemma inc_getD_own {c : VectorClock} {i : Nat} (h : c.id = some i)
    (hi : i < c.clock.length) : (inc c).clock.getD i 0 = c.clock.getD i 0 + 1 := by
  rw [inc_clock_some h, getD_set_self hi]

lemma inc_getD_ne {c : VectorClock} {i j : Nat} (h : c.id = some i) (hj : i ≠ j) :
    (inc c).clock.getD j 0 = c.clock.getD j 0 := by
  rw [inc_clock_some h, getD_set_ne hj]

lemma inc_mono (c : VectorClock) (j : Nat) :
    c.clock.getD j 0 ≤ (inc c).clock.getD j 0 := by
  cases h : c.id with
  | none => simp [inc, h]
  | some i =>
    by_cases hij : i = j
    · subst hij
      by_cases hi : i < c.clock.length
      · rw [inc_getD_own h hi]
        omega
      · rw [getD_zero_of_len_le (by omega)]
        omega
    · rw [inc_getD_ne h hij]

lemma maxClock_id (c o : VectorClock) : (maxClock c o).id = c.id := rfl

lemma maxClock_length (c o : VectorClock) :
    (maxClock c o).clock.length = c.clock.length := by
  simp [maxClock]

lemma maxClock_getD (c o : VectorClock) (j : Nat) :
    (maxClock c o).clock.getD j 0 =
      if j < c.clock.length then max (c.clock.getD j 0) (o.clock.getD j 0) else 0 := by
  rw [maxClock]
  exact getD_range_map _ _ _

lemma merge_id (c o : VectorClock) : (merge c o).id = c.id := by
  rw [merge, inc_id, maxClock_id]

lemma merge_length (c o : VectorClock) : (merge c o).clock.length = c.clock.length := by
  rw [merge, inc_length, maxClock_length]

lemma merge_getD_lt {c : VectorClock} (o : VectorClock) {i j : Nat} (h : c.id = some i)
    (hi : i < c.clock.length) (hj : j < c.clock.length) :
    (merge c o).clock.getD j 0 =
      if j = i then max (c.clock.getD j 0) (o.clock.getD j 0) + 1
      else max (c.clock.getD j 0) (o.clock.getD j 0) := by
  have hid : (maxClock c o).id = some i := by rw [maxClock_id, h]
  rw [merge]
  by_cases hij : j = i
  · subst hij
    rw [inc_getD_own hid (by rw [maxClock_length]; exact hj), maxClock_getD]
    simp [hj]
  · rw [inc_getD_ne hid (fun he => hij he.symm), maxClock_getD]
    simp [hj, hij]

lemma merge_mono_self (c o : VectorClock) (j : Nat) :
    c.clock.getD j 0 ≤ (merge c o).clock.getD j 0 := by
  rw [merge]
  refine le_trans ?_ (inc_mono _ j)
  rw [maxClock_getD]
  by_cases hj : j < c.clock.length
  · simp [hj]
  · rw [getD_zero_of_len_le (by omega)]
    omega

lemma merge_mono_other {c o : VectorClock} (hlen : o.clock.length ≤ c.clock.length)
    (j : Nat) : o.clock.getD j 0 ≤ (merge c o).clock.getD j 0 := by
  rw [merge]
  refine le_trans ?_ (inc_mono _ j)
  rw [maxClock_getD]
  by_cases hj : j < c.clock.length
  · simp [hj]
  · rw [getD_zero_of_len_le (by omega)]
    omega

lemma merge_own_lower {c : VectorClock} (o : VectorClock) {i : Nat} (h : c.id = some i)
    (hi : i < c.clock.length) :
    c.clock.getD i 0 + 1 ≤ (merge c o).clock.getD i 0 := by
  rw [merge_getD_lt o h hi hi]
  simp

lemma copy_clock_eq (c : VectorClock) : (copy c).clock = c.clock := by
  apply List.ext_getElem
  · simp [copy]
  · intro i h1 h2
    simp only [copy, List.getElem_map, List.getElem_range]
    rw [List.getD_eq_getElem]

/-! Soundness of the dequeue-merge loop: a successful `waitLoop` consumed a
prefix `pre ++ [m]` of the queued messages, where `m` is the first message
carrying the dependency id; it appended exactly the ids of `pre` to the
buffer, preserved the clock's owner and width, never decreased any slot,
advanced the own slot by at least one, and (when the queued snapshots are no
wider than the clock) ends with a clock dominating every consumed snapshot. -/
lemma waitLoop_sound (dep : Nat) (ms : List Message) :
    ∀ (c : VectorClock) (buf : List Nat) (c2 : VectorClock) (b2 : List Nat)
      (rest : List Message),
      waitLoop dep ms c buf = some (c2, b2, rest) →
      ∃ pre m,
        ms = pre ++ m :: rest ∧
        m.event_id = dep ∧
        b2 = buf ++ pre.map Message.event_id ∧
        c2.id = c.id ∧
        c2.clock.length = c.clock.length ∧
        (∀ j, c.clock.getD j 0 ≤ c2.clock.getD j 0) ∧
        (∀ i, c.id = some i → i < c.clock.length →
          c.clock.getD i 0 + 1 ≤ c2.clock.getD i 0) ∧
        ((∀ x ∈ ms, x.clock.clock.length ≤ c.clock.length) →
          ∀ x ∈ pre ++ [m], ∀ j, x.clock.clock.getD j 0 ≤ c2.clock.getD j 0) := by
  induction ms with
  | nil =>
    intro c buf c2 b2 rest h
    simp [waitLoop] at h
  | cons m ms' ih =>
    intro c buf c2 b2 rest h
    rw [waitLoop] at h
    by_cases hm : m.event_id = dep
    · rw [if_pos hm] at h
      simp only [Option.some.injEq, Prod.mk.injEq] at h
      obtain ⟨hc, hb, hr⟩ := h
      subst hc hb hr
      refine ⟨[], m, by simp, hm, by simp, merge_id c m.clock, merge_length c m.clock,
        merge_mono_self c m.clock, ?_, ?_⟩
      · intro i hid hi
        exact merge_own_lower m.clock hid hi
      · intro hlen x hx j
        simp only [List.nil_append, List.mem_singleton] at hx
        subst hx
        exact merge_mono_other (hlen x (by simp)) j
    · rw [if_neg hm] at h
      obtain ⟨pre', m', h1, h2, h3, h4, h5, h6, h7, h8⟩ :=
        ih (merge c m.clock) (buf_event_id buf m.event_id) c2 b2 rest h
      refine ⟨m :: pre', m', by rw [List.cons_append, h1], h2, ?_, ?_, ?_, ?_, ?_, ?_⟩
      · rw [h3, buf_event_id, List.map_cons, List.append_assoc, List.singleton_append]
      · rw [h4, merge_id]
      · rw [h5, merge_length]
      · intro j
        exact le_trans (merge_mono_self c m.clock j) (h6 j)
      · intro i hid hi
        exact le_trans (merge_own_lower m.clock hid hi) (h6 i)
      · intro hlen x hx j
        have hlen' : ∀ x ∈ ms', x.clock.clock.length ≤ (merge c m.clock).clock.length := by
          rw [merge_length]
          intro y hy
          exact hlen y (by simp [hy])
        rcases (by simpa using hx : x = m ∨ x ∈ pre' ∨ x = m') with hx1 | hx2 | hx3
        · subst hx1
          exact le_trans (merge_mono_other (hlen x (by simp)) j) (h6 j)
        · exact h8 hlen' x (by simp [hx2]) j
        · exact h8 hlen' x (by simp [hx3]) j

/-- Inversion for `wait_on_dependency`: either the dependency id was already
buffered (and nothing at all happens), or the dequeue-merge loop ran. -/
lemma wait_cases {s : NodeState} {D : Nat} {s2 : NodeState}
    (h : wait_on_dependency s D = some s2) :
    (D ∈ s.buffer ∧ s2 = s) ∨
    (D ∉ s.buffer ∧ ∃ c b rest, waitLoop D s.inbox s.clock s.buffer = some (c, b, rest) ∧
      s2 = { s with clock := c, buffer := b, inbox := rest }) := by
  rw [wait_on_dependency] at h
  by_cases hb : buffered s.buffer D
  · rw [if_pos hb] at h
    left
    refine ⟨by simpa [buffered] using hb, by injection h with h2; exact h2.symm⟩
  · rw [if_neg hb] at h
    right
    refine ⟨by simpa [buffered] using hb, ?_⟩
    cases hw : waitLoop D s.inbox s.clock s.buffer with
    | none => rw [hw] at h; exact absurd h (by simp)
    | some v =>
      obtain ⟨c, b, rest⟩ := v
      rw [hw] at h
      exact ⟨c, b, rest, rfl, by injection h with h2; exact h2.symm⟩

/-- Inversion for `runEvent`: the three event types of `Node.run` and the
state each produces. -/
lemma runEvent_cases {s : NodeState} {ev : Event} {s' : NodeState}
    (h : runEvent s ev = some s') :
    (ev.type = 'i' ∧
      s' = { s with log := s.log ++ [(ev.event_id, s.clock.clock)], clock := inc s.clock }) ∨
    (ev.type = 'r' ∧ ∃ D s2, ev.dependency = some D ∧ wait_on_dependency s D = some s2 ∧
      s' = { s2 with log := s2.log ++ [(ev.event_id, s2.clock.clock)], clock := inc s2.clock }) ∨
    (ev.type = 's' ∧ ∃ rv, ev.receiver = some rv ∧
      s' = { s with sent := s.sent ++ [(rv, ⟨ev.event_id, copy s.clock⟩)],
                    log := s.log ++ [(ev.event_id, s.clock.clock)],
                    clock := inc s.clock }) := by
  rw [runEvent] at h
  by_cases hi : ev.type = 'i'
  · rw [if_pos hi] at h
    exact Or.inl ⟨hi, by injection h with h2; exact h2.symm⟩
  · rw [if_neg hi] at h
    by_cases hr : ev.type = 'r'
    · rw [if_pos hr] at h
      refine Or.inr (Or.inl ⟨hr, ?_⟩)
      cases hd : ev.dependency with
      | none => rw [hd] at h; exact absurd h (by simp)
      | some D =>
        rw [hd] at h
        have h3 : (match wait_on_dependency s D with
            | some s2 => some { s2 with log := s2.log ++ [(ev.event_id, s2.clock.clock)],
                                        clock := inc s2.clock }
            | none => none) = some s' := h
        cases hw : wait_on_dependency s D with
        | none => rw [hw] at h3; exact absurd h3 (by simp)
        | some s2 =>
          rw [hw] at h3
          exact ⟨D, s2, rfl, hw, by injection h3 with h4; exact h4.symm⟩
    · rw [if_neg hr] at h
      by_cases hs : ev.type = 's'
      · rw [if_pos hs] at h
        refine Or.inr (Or.inr ⟨hs, ?_⟩)
        cases hrv : ev.receiver with
        | none => rw [hrv] at h; exact absurd h (by simp)
        | some rv =>
          rw [hrv] at h
          exact ⟨rv, rfl, by injection h with h2; exact h2.symm⟩
      · rw [if_neg hs] at h
        exact absurd h (by simp)

/-- Executing one event preserves well-formedness and the node id, consumes a
prefix `l` of the inbox, ends with a clock dominating every consumed snapshot,
only appends to the buffer (each appended id coming from a consumed message),
never decreases any clock slot, and advances the own slot by at least one. -/
lemma runEvent_inv {n : Nat} {s : NodeState} {ev : Event} {s' : NodeState}
    (hwf : WF n s) (h : runEvent s ev = some s') :
    WF n s' ∧ s'.id = s.id ∧
    ∃ l, s.inbox = l ++ s'.inbox ∧
      (∀ x ∈ l, ∀ j, x.clock.clock.getD j 0 ≤ s'.clock.clock.getD j 0) ∧
      (∀ b ∈ s'.buffer, b ∈ s.buffer ∨ ∃ x ∈ l, x.event_id = b) ∧
      (∀ j, s.clock.clock.getD j 0 ≤ s'.clock.clock.getD j 0) ∧
      ownSlot s + 1 ≤ ownSlot s' := by
  obtain ⟨hid, hlt, hln, hmsg⟩ := hwf
  have hlt' : s.id < s.clock.clock.length := by rw [hln]; exact hlt
  rcases runEvent_cases h with ⟨-, hs'⟩ | ⟨-, D, s2, hD, hw, hs'⟩ | ⟨-, rv, hrv, hs'⟩
  · subst hs'
    refine ⟨⟨by rw [inc_id]; exact hid, hlt, by rw [inc_length]; exact hln, hmsg⟩, rfl,
      [], by simp, by simp, fun b hb => Or.inl hb, fun j => inc_mono _ j, ?_⟩
    simp only [ownSlot]
    rw [inc_getD_own hid hlt']
  · rcases wait_cases hw with ⟨-, hs2⟩ | ⟨-, c, b, rest, hloop, hs2⟩
    · subst hs2 hs'
      refine ⟨⟨by rw [inc_id]; exact hid, hlt, by rw [inc_length]; exact hln, hmsg⟩, rfl,
        [], by simp, by simp, fun b hb => Or.inl hb, fun j => inc_mono _ j, ?_⟩
      simp only [ownSlot]
      rw [inc_getD_own hid hlt']
    · obtain ⟨pre, m, h1, h2, h3, h4, h5, h6, h7, h8⟩ :=
        waitLoop_sound D s.inbox s.clock s.buffer c b rest hloop
      subst hs2 hs'
      have hcid : c.id = some s.id := by rw [h4]; exact hid
      have hcln : c.clock.length = n := by rw [h5]; exact hln
      have hrest : ∀ x ∈ rest, x ∈ s.inbox := by
        intro x hx
        rw [h1]
        simp [hx]
      have hmono : ∀ j, s.clock.clock.getD j 0 ≤ (inc c).clock.getD j 0 :=
        fun j => le_trans (h6 j) (inc_mono c j)
      have hdom : ∀ x ∈ pre ++ [m], ∀ j, x.clock.clock.getD j 0 ≤ (inc c).clock.getD j 0 := by
        intro x hx j
        refine le_trans (h8 ?_ x hx j) (inc_mono c j)
        intro y hy
        rw [hmsg y hy, hln]
      refine ⟨⟨by rw [inc_id]; exact hcid, hlt, by rw [inc_length]; exact hcln,
        fun x hx => hmsg x (hrest x hx)⟩, rfl, pre ++ [m], by rw [h1]; simp, hdom, ?_, hmono, ?_⟩
      · intro x hx
        rw [h3] at hx
        rcases List.mem_append.mp hx with hx1 | hx2
        · exact Or.inl hx1
        · obtain ⟨y, hy, hyx⟩ := List.mem_map.mp hx2
          exact Or.inr ⟨y, by simp [hy], hyx⟩
      · simp only [ownSlot]
        calc s.clock.clock.getD s.id 0 + 1 ≤ c.clock.getD s.id 0 := h7 s.id hid hlt'
          _ ≤ (inc c).clock.getD s.id 0 := inc_mono c s.id
  · subst hs'
    refine ⟨⟨by rw [inc_id]; exact hid, hlt, by rw [inc_length]; exact hln, hmsg⟩, rfl,
      [], by simp, by simp, fun b hb => Or.inl hb, fun j => inc_mono _ j, ?_⟩
    simp only [ownSlot]
    rw [inc_getD_own hid hlt']

/-- Running a node halts the loop at the first event whose `runEvent` is
`none` (invalid event or a receive blocked forever). -/
lemma runNode_halt {s : NodeState} {ev : Event} {evs : List Event}
    (h : runEvent s ev = none) : runNode s (ev :: evs) = s := by
  rw [runNode, h]

/-- Running a node on a successful first event continues with the rest. -/
lemma runNode_step {s s2 : NodeState} {ev : Event} {evs : List Event}
    (h : runEvent s ev = some s2) : runNode s (ev :: evs) = runNode s2 evs := by
  rw [runNode, h]

/-- Whole-run invariant: well-formedness and the node id are preserved, a
prefix `l` of the inbox is consumed, the final clock dominates every consumed
snapshot, every id added to the buffer is the event id of a consumed message,
and no clock slot ever decreases. -/
lemma runNode_inv {n : Nat} (evs : List Event) :
    ∀ s : NodeState, WF n s →
    WF n (runNode s evs) ∧ (runNode s evs).id = s.id ∧
    ∃ l, s.inbox = l ++ (runNode s evs).inbox ∧
      (∀ x ∈ l, ∀ j, x.clock.clock.getD j 0 ≤ (runNode s evs).clock.clock.getD j 0) ∧
      (∀ b ∈ (runNode s evs).buffer, b ∈ s.buffer ∨ ∃ x ∈ l, x.event_id = b) ∧
      (∀ j, s.clock.clock.getD j 0 ≤ (runNode s evs).clock.clock.getD j 0) := by
  induction evs with
  | nil =>
    intro s hwf
    exact ⟨hwf, rfl, [], by simp [runNode], by simp, fun b hb => Or.inl hb, fun j => le_refl _⟩
  | cons ev evs' ih =>
    intro s hwf
    cases he : runEvent s ev with
    | none =>
      rw [runNode_halt he]
      exact ⟨hwf, rfl, [], by simp, by simp, fun b hb => Or.inl hb, fun j => le_refl _⟩
    | some s2 =>
      rw [runNode_step he]
      obtain ⟨hwf2, hid2, l1, hl1, hdom1, hbuf1, hmono1, -⟩ := runEvent_inv hwf he
      obtain ⟨hwf3, hid3, l2, hl2, hdom2, hbuf2, hmono2⟩ := ih s2 hwf2
      refine ⟨hwf3, by rw [hid3, hid2], l1 ++ l2, ?_, ?_, ?_, ?_⟩
      · rw [hl1, hl2, List.append_assoc]
      · intro x hx j
        rcases List.mem_append.mp hx with hx1 | hx2
        · exact le_trans (hdom1 x hx1 j) (hmono2 j)
        · exact hdom2 x hx2 j
      · intro b hb
        rcases hbuf2 b hb with hb2 | ⟨x, hx, hxe⟩
        · rcases hbuf1 b hb2 with hb1 | ⟨x, hx, hxe⟩
          · exact Or.inl hb1
          · exact Or.inr ⟨x, by simp [hx], hxe⟩
        · exact Or.inr ⟨x, by simp [hx], hxe⟩
      · intro j
        exact le_trans (hmono1 j) (hmono2 j)

/-- Any single event appends at most to the buffer (no well-formedness
needed). -/
lemma runEvent_buffer {s : NodeState} {ev : Event} {s' : NodeState}
    (h : runEvent s ev = some s') : ∃ t, s'.buffer = s.buffer ++ t := by
  rcases runEvent_cases h with ⟨-, hs'⟩ | ⟨-, D, s2, hD, hw, hs'⟩ | ⟨-, rv, hrv, hs'⟩
  · subst hs'
    exact ⟨[], by simp⟩
  · rcases wait_cases hw with ⟨-, hs2⟩ | ⟨-, c, b, rest, hloop, hs2⟩
    · subst hs2 hs'
      exact ⟨[], by simp⟩
    · obtain ⟨pre, m, -, -, h3, -⟩ :=
        waitLoop_sound D s.inbox s.clock s.buffer c b rest hloop
      subst hs2 hs'
      exact ⟨pre.map Message.event_id, h3⟩
  · subst hs'
    exact ⟨[], by simp⟩

/-- A whole run only ever appends to the buffer. -/
lemma runNode_buffer (evs : List Event) :
    ∀ s : NodeState, ∃ t, (runNode s evs).buffer = s.buffer ++ t := by
  induction evs with
  | nil =>
    intro s
    exact ⟨[], by simp [runNode]⟩
  | cons ev evs' ih =>
    intro s
    cases he : runEvent s ev with
    | none =>
      rw [runNode_halt he]
      exact ⟨[], by simp⟩
    | some s2 =>
      rw [runNode_step he]
      obtain ⟨t1, ht1⟩ := runEvent_buffer he
      obtain ⟨t2, ht2⟩ := ih s2
      exact ⟨t1 ++ t2, by rw [ht2, ht1, List.append_assoc]⟩

/-- An independent or send event advances the own slot by exactly one. -/
lemma runEvent_own_exact {s : NodeState} {ev : Event} {s' : NodeState}
    (hid : s.clock.id = some s.id) (hlt : s.id < s.clock.clock.length)
    (h : runEvent s ev = some s') (ht : ev.type = 'i' ∨ ev.type = 's') :
    ownSlot s' = ownSlot s + 1 := by
  rcases runEvent_cases h with ⟨-, hs'⟩ | ⟨hr, -⟩ | ⟨-, rv, hrv, hs'⟩
  · subst hs'
    simp only [ownSlot]
    rw [inc_getD_own hid hlt]
  · rcases ht with hti | hts
    · rw [hti] at hr
      exact absurd hr (by decide)
    · rw [hts] at hr
      exact absurd hr (by decide)
  · subst hs'
    simp only [ownSlot]
    rw [inc_getD_own hid hlt]

/-- C5: for two clocks of the same length, `merge` keeps the owner id and the
length, and every slot `j` of the result is `max self[j] other[j]`, with the
own slot further incremented by 1.  The embedding is pure, so the second
argument is a value `merge` cannot change. -/
theorem merge_spec (c o : VectorClock) (i : Nat) (h : c.id = some i)
    (hi : i < c.clock.length) (_hlen : o.clock.length = c.clock.length) :
    (merge c o).id = c.id ∧ (merge c o).clock.length = c.clock.length ∧
    ∀ j < c.clock.length,
      (merge c o).clock.getD j 0 =
        if j = i then max (c.clock.getD j 0) (o.clock.getD j 0) + 1
        else max (c.clock.getD j 0) (o.clock.getD j 0) :=
  ⟨merge_id c o, merge_length c o, fun _ hj => merge_getD_lt o h hi hj⟩

/-- Witness for `merge_spec` at clocks `[1, 2]` (owned by node 0) and
`[3, 0]`. -/
theorem merge_spec_witness :
    (merge ⟨some 0, [1, 2]⟩ ⟨none, [3, 0]⟩).id = some 0 ∧
    (merge ⟨some 0, [1, 2]⟩ ⟨none, [3, 0]⟩).clock.length = 2 ∧
    ∀ j < 2, (merge ⟨some 0, [1, 2]⟩ ⟨none, [3, 0]⟩).clock.getD j 0 =
      if j = 0 then max ([1, 2].getD j 0) ([3, 0].getD j 0) + 1
      else max ([1, 2].getD j 0) ([3, 0].getD j 0) :=
  merge_spec ⟨some 0, [1, 2]⟩ ⟨none, [3, 0]⟩ 0 rfl (by decide) rfl

/-- C8: `copy` (the spec's `snapshot()`) returns a clock with `id = None`
whose slot values equal the original's at the time of the call.  The source
writes the values into a freshly allocated list, which the pure embedding
reflects: `copy c` is a value detached from the owner, so no later `inc` or
`merge` of the owner's clock (which in the embedding produces a new clock
value) can change it; the provable content is the value equation below. -/
theorem copy_spec (c : VectorClock) : (copy c).id = none ∧ (copy c).clock = c.clock :=
  ⟨rfl, copy_clock_eq c⟩

/-- C7: a send event succeeds unconditionally, appends exactly one message to
the channel of `queues[receiver]` — which is not the sender's own channel
whenever `receiver ≠ sender` — carrying the event id and a snapshot of the
sender's clock whose values are those before the sender's post-event
increment, and the sender's own inbox is untouched. -/
theorem send_spec (s : NodeState) (e rv : Nat) (d : Option Nat) (hne : rv ≠ s.id) :
    runEvent s ⟨e, 's', some rv, d⟩ =
      some { s with sent := s.sent ++ [(rv, ⟨e, copy s.clock⟩)],
                    log := s.log ++ [(e, s.clock.clock)],
                    clock := inc s.clock } ∧
    (copy s.clock).clock = s.clock.clock ∧ rv ≠ s.id :=
  ⟨by simp [runEvent], copy_clock_eq s.clock, hne⟩

/-- Witness for `send_spec`: node 0 sends event 4 to node 1 from clock
`[1, 0]`. -/
theorem send_spec_witness :
    runEvent (initNode 0 2 []) ⟨4, 's', some 1, none⟩ =
      some { initNode 0 2 [] with
              sent := [(1, ⟨4, copy (⟨some 0, [0, 0]⟩ : VectorClock)⟩)],
              log := [(4, [0, 0])],
              clock := inc ⟨some 0, [0, 0]⟩ } ∧
    (copy (⟨some 0, [0, 0]⟩ : VectorClock)).clock = [0, 0] ∧ 1 ≠ 0 :=
  send_spec (initNode 0 2 []) 4 1 none (by decide)

/-- C9: when the dependency id is already buffered, `wait_on_dependency`
returns the state entirely unchanged — no dequeue from any channel, no merge —
so the receive event logs the clock value from before the event and then
increments it exactly once. -/
theorem buffered_receive_frame (s : NodeState) (e D : Nat) (r : Option Nat)
    (h : D ∈ s.buffer) :
    wait_on_dependency s D = some s ∧
    runEvent s ⟨e, 'r', r, some D⟩ =
      some { s with log := s.log ++ [(e, s.clock.clock)], clock := inc s.clock } := by
  have hb : buffered s.buffer D = true := by simp [buffered, h]
  have hw : wait_on_dependency s D = some s := by rw [wait_on_dependency, if_pos hb]
  exact ⟨hw, by simp [runEvent, hw]⟩

/-- Witness for `buffered_receive_frame`: dependency 7 already buffered, so
the queued message is not consumed and the clock only gets the single
post-log increment. -/
theorem buffered_receive_frame_witness :
    wait_on_dependency { initNode 1 2 [⟨9, ⟨none, [5, 5]⟩⟩] with buffer := [7] } 7 =
      some { initNode 1 2 [⟨9, ⟨none, [5, 5]⟩⟩] with buffer := [7] } ∧
    runEvent { initNode 1 2 [⟨9, ⟨none, [5, 5]⟩⟩] with buffer := [7] } ⟨2, 'r', none, some 7⟩ =
      some { initNode 1 2 [⟨9, ⟨none, [5, 5]⟩⟩] with
              buffer := [7],
              log := [(2, [0, 0])],
              clock := inc ⟨some 1, [0, 0]⟩ } :=
  buffered_receive_frame { initNode 1 2 [⟨9, ⟨none, [5, 5]⟩⟩] with buffer := [7] } 2 7 none
    (by decide)

/-- C10: the receive buffer never shrinks — every run leaves it unchanged or
extends it on the right; `buf_event_id` is the only writer and appends exactly
one id; and the same id is appended once per non-matching dequeue, so it can
appear twice (here two messages with id 7 arrive while dependency 3 is
awaited). -/
theorem buffer_append_only :
    (∀ (s : NodeState) (evs : List Event), ∃ t, (runNode s evs).buffer = s.buffer ++ t) ∧
    (∀ (buf : List Nat) (x : Nat), buf_event_id buf x = buf ++ [x]) ∧
    (runNode (initNode 1 2 [⟨7, ⟨none, [0, 0]⟩⟩, ⟨7, ⟨none, [0, 0]⟩⟩, ⟨3, ⟨none, [0, 0]⟩⟩])
      [⟨10, 'r', none, some 3⟩]).buffer = [7, 7] :=
  ⟨fun s evs => runNode_buffer evs s, fun _ _ => rfl, by decide⟩

/-- C1 counterexample: in the scenario node 0 = `[Send(e1, receiver=1)]`,
node 1 = `[Receive(e2, dependency=1)]`, node 1's final clock is `[0, 2]`, not
`[1, 1]` as claimed (the send snapshots the clock before incrementing, so the
message carries `[0, 0]`, and `merge` itself increments slot 1 before the
post-log increment does so again). -/
theorem example_scenario_claim_false :
    (simulate2 [⟨1, 's', some 1, none⟩] [⟨2, 'r', none, some 1⟩]).2.clock.clock = [0, 2] ∧
    (simulate2 [⟨1, 's', some 1, none⟩] [⟨2, 'r', none, some 1⟩]).2.clock.clock ≠ [1, 1] := by
  decide

/-- C1 amended: node 0 ends with clock `[1, 0]`; the message enqueued for
node 1 carries the snapshot `[0, 0]` (taken before node 0's post-event
increment); node 1 logs its receive at `[0, 1]` (the merge of `[0, 0]` with
`[0, 0]` already increments slot 1) and ends at `[0, 2]` after the post-log
increment. -/
theorem example_scenario_final_clocks :
    (simulate2 [⟨1, 's', some 1, none⟩] [⟨2, 'r', none, some 1⟩]).1.clock.clock = [1, 0] ∧
    (sentTo (simulate2 [⟨1, 's', some 1, none⟩] [⟨2, 'r', none, some 1⟩]).1 1).map
      (fun m => m.clock.clock) = [[0, 0]] ∧
    (simulate2 [⟨1, 's', some 1, none⟩] [⟨2, 'r', none, some 1⟩]).2.log = [(2, [0, 1])] ∧
    (simulate2 [⟨1, 's', some 1, none⟩] [⟨2, 'r', none, some 1⟩]).2.clock.clock = [0, 2] := by
  decide

/-- C2 counterexample: a single receive event can grow the node's own slot by
2 (one increment inside `merge`, one after logging), so the own slot does not
grow by exactly 1 at every event. -/
theorem own_slot_exact_one_false :
    (runEvent (initNode 1 2 [⟨1, ⟨none, [0, 0]⟩⟩]) ⟨2, 'r', none, some 1⟩).map ownSlot =
      some 2 ∧
    ownSlot (initNode 1 2 [⟨1, ⟨none, [0, 0]⟩⟩]) = 0 ∧ (2 : Nat) ≠ 0 + 1 := by
  decide

/-- C2 amended: across any execution a node's own slot is non-decreasing, and
every executed event grows it by at least 1 — by exactly 1 for independent and
send events, and by 1 plus one extra increment per merged message for receive
events. -/
theorem own_slot_monotone (n : Nat) (s : NodeState) (hwf : WF n s) :
    (∀ evs : List Event, ownSlot s ≤ ownSlot (runNode s evs)) ∧
    (∀ (ev : Event) (s' : NodeState), runEvent s ev = some s' →
      ownSlot s + 1 ≤ ownSlot s') ∧
    (∀ (ev : Event) (s' : NodeState), runEvent s ev = some s' →
      (ev.type = 'i' ∨ ev.type = 's') → ownSlot s' = ownSlot s + 1) := by
  refine ⟨?_, ?_, ?_⟩
  · intro evs
    obtain ⟨-, hfid, -, -, -, -, hmono⟩ := runNode_inv (n := n) evs s hwf
    simp only [ownSlot]
    rw [hfid]
    exact hmono s.id
  · intro ev s' h
    obtain ⟨-, -, -, -, -, -, -, hown⟩ := runEvent_inv hwf h
    exact hown
  · intro ev s' h ht
    exact runEvent_own_exact hwf.1 (by rw [hwf.2.2.1]; exact hwf.2.1) h ht

/-- Witness for `own_slot_monotone` at node 1 of a 2-node simulation. -/
theorem own_slot_monotone_witness :
    (∀ evs : List Event, ownSlot (initNode 1 2 []) ≤ ownSlot (runNode (initNode 1 2 []) evs)) ∧
    (∀ (ev : Event) (s' : NodeState), runEvent (initNode 1 2 []) ev = some s' →
      ownSlot (initNode 1 2 []) + 1 ≤ ownSlot s') ∧
    (∀ (ev : Event) (s' : NodeState), runEvent (initNode 1 2 []) ev = some s' →
      (ev.type = 'i' ∨ ev.type = 's') → ownSlot s' = ownSlot (initNode 1 2 []) + 1) :=
  own_slot_monotone 2 (initNode 1 2 []) ⟨rfl, by decide, by decide, by decide⟩

/-- C3: the code never removes a matched id from the receive buffer
(`buffered` only reads it), so one buffered id satisfies any number of later
receive events.  Here id 7 is buffered while dependency 3 is awaited, and both
later receives naming dependency 7 complete (three log entries) with the
buffer still `[7]` and the channel exhausted — contradicting the spec's rule
that a buffered id is consumed and matched at most once. -/
theorem buffered_id_reused :
    (runNode (initNode 1 2 [⟨7, ⟨none, [0, 0]⟩⟩, ⟨3, ⟨none, [0, 0]⟩⟩])
        [⟨10, 'r', none, some 3⟩, ⟨11, 'r', none, some 7⟩, ⟨12, 'r', none, some 7⟩]).buffer
      = [7] ∧
    (runNode (initNode 1 2 [⟨7, ⟨none, [0, 0]⟩⟩, ⟨3, ⟨none, [0, 0]⟩⟩])
        [⟨10, 'r', none, some 3⟩, ⟨11, 'r', none, some 7⟩, ⟨12, 'r', none, some 7⟩]).log.length
      = 3 ∧
    (runNode (initNode 1 2 [⟨7, ⟨none, [0, 0]⟩⟩, ⟨3, ⟨none, [0, 0]⟩⟩])
        [⟨10, 'r', none, some 3⟩, ⟨11, 'r', none, some 7⟩, ⟨12, 'r', none, some 7⟩]).inbox
      = [] := by
  decide

/-- C4 counterexample: with node 0 = `[invalid, Independent(9)]` and node 1 =
`[Independent(5)]`, node 0 stops (its log is empty, event 9 never runs) but
node 1 still executes its event — the simulation is not aborted as a whole. -/
theorem invalid_event_abort_false :
    (simulate2 [⟨1, 'x', none, none⟩, ⟨9, 'i', none, none⟩] [⟨5, 'i', none, none⟩]).1.log
      = [] ∧
    (simulate2 [⟨1, 'x', none, none⟩, ⟨9, 'i', none, none⟩] [⟨5, 'i', none, none⟩]).2.log
      = [(5, [0, 0])] ∧
    (simulate2 [⟨1, 'x', none, none⟩, ⟨9, 'i', none, none⟩] [⟨5, 'i', none, none⟩]).2.log
      ≠ [] := by
  decide

/-- C4 amended: an event whose type is outside `{'i', 's', 'r'}` terminates
only the node that encounters it (its `exit()` ends just that thread): none of
that node's further events run, while other nodes continue executing their
scripts, as the concrete two-node simulation shows. -/
theorem invalid_event_local_halt (s : NodeState) (ev : Event) (evs : List Event)
    (h1 : ev.type ≠ 'i') (h2 : ev.type ≠ 'r') (h3 : ev.type ≠ 's') :
    runNode s (ev :: evs) = s ∧
    (simulate2 [⟨1, 'x', none, none⟩, ⟨9, 'i', none, none⟩] [⟨5, 'i', none, none⟩]).2.log
      = [(5, [0, 0])] := by
  constructor
  · apply runNode_halt
    rw [runEvent, if_neg h1, if_neg h2, if_neg h3]
  · decide

/-- Witness for `invalid_event_local_halt` at a concrete invalid event. -/
theorem invalid_event_local_halt_witness :
    runNode (initNode 0 2 []) [⟨1, 'x', none, none⟩, ⟨9, 'i', none, none⟩] = initNode 0 2 [] ∧
    (simulate2 [⟨1, 'x', none, none⟩, ⟨9, 'i', none, none⟩] [⟨5, 'i', none, none⟩]).2.log
      = [(5, [0, 0])] :=
  invalid_event_local_halt (initNode 0 2 []) ⟨1, 'x', none, none⟩ [⟨9, 'i', none, none⟩]
    (by decide) (by decide) (by decide)

/-- C6: causal dominance.  Starting from a well-formed node state with an
empty buffer, if after some prefix of the script a receive event with
dependency `D` completes, then some message with event id `D` was dequeued
from the node's channel during the execution, and the receiver's clock after
the receive dominates that message's clock snapshot element-wise.  (This
covers both the direct-dequeue path and the case where `D`'s message was
dequeued and buffered earlier: every dequeued message is merged on receipt and
clock slots never decrease.) -/
theorem causal_dominance (n : Nat) (s0 : NodeState) (evs1 : List Event)
    (e D : Nat) (r : Option Nat) (s2 : NodeState)
    (hwf : WF n s0) (hbuf : s0.buffer = [])
    (h2 : runEvent (runNode s0 evs1) ⟨e, 'r', r, some D⟩ = some s2) :
    ∃ m : Message, (∃ l, s0.inbox = l ++ s2.inbox ∧ m ∈ l) ∧ m.event_id = D ∧
      ∀ j, m.clock.clock.getD j 0 ≤ s2.clock.clock.getD j 0 := by
  obtain ⟨hwf1, hid1, l1, hl1, hdom1, hbuf1, hmono1⟩ := runNode_inv (n := n) evs1 s0 hwf
  set s1 := runNode s0 evs1 with hs1
  obtain ⟨hcid1, hlt1, hln1, hmsg1⟩ := hwf1
  rcases runEvent_cases h2 with ⟨hti, -⟩ | ⟨-, D', s', hD', hw, hs2⟩ | ⟨hts, -⟩
  · exact absurd hti (by simp)
  · injection hD' with hDD
    subst hDD
    rcases wait_cases hw with ⟨hmem, hseq⟩ | ⟨hnmem, c, b, rest, hloop, hseq⟩
    · subst hseq
      rcases hbuf1 D hmem with hin0 | ⟨x, hx, hxe⟩
      · rw [hbuf] at hin0
        exact absurd hin0 (List.not_mem_nil D)
      · refine ⟨x, ⟨l1, ?_, hx⟩, hxe, ?_⟩
        · rw [hs2]
          exact hl1
        · intro j
          rw [hs2]
          exact le_trans (hdom1 x hx j) (inc_mono s1.clock j)
    · obtain ⟨pre, m, h1, h2', h3, h4, h5, h6, h7, h8⟩ :=
        waitLoop_sound D s1.inbox s1.clock s1.buffer c b rest hloop
      have hdomc : ∀ x ∈ pre ++ [m], ∀ j, x.clock.clock.getD j 0 ≤ c.clock.getD j 0 := by
        refine h8 ?_
        intro y hy
        rw [hmsg1 y hy, hln1]
      refine ⟨m, ⟨l1 ++ (pre ++ [m]), ?_, by simp⟩, h2', ?_⟩
      · rw [hs2, hseq]
        simp only
        rw [hl1, h1]
        simp
      · intro j
        rw [hs2, hseq]
        simp only
        exact le_trans (hdomc m (by simp) j) (inc_mono c j)
  · exact absurd hts (by simp)

/-- Witness for `causal_dominance`: node 1 receives the message `(1, [0, 0])`
directly from its channel. -/
theorem causal_dominance_witness :
    ∃ m : Message,
      (∃ l, [(⟨1, ⟨none, [0, 0]⟩⟩ : Message)] = l ++
        (⟨1, ⟨some 1, [0, 2]⟩, [], [], [(2, [0, 1])], []⟩ : NodeState).inbox ∧ m ∈ l) ∧
      m.event_id = 1 ∧
      ∀ j, m.clock.clock.getD j 0 ≤
        (⟨1, ⟨some 1, [0, 2]⟩, [], [], [(2, [0, 1])], []⟩ : NodeState).clock.clock.getD j 0 :=
  causal_dominance 2 (initNode 1 2 [⟨1, ⟨none, [0, 0]⟩⟩]) [] 2 1 none
    ⟨1, ⟨some 1, [0, 2]⟩, [], [], [(2, [0, 1])], []⟩
    ⟨rfl, by decide, by decide, by decide⟩ rfl (by decide)

end VClock
